import Mathlib

/-!
# train-agent: STOMP frame codec, subscription registry and serial device codec

A shallow embedding of `stomp.go` and `serialConnection.go`.

* Go strings and byte slices are lists of bytes (`List Nat`, each entry a byte value).
* A Go `map` is an association list with unique keys (`mapGet`, `mapSet`, `mapDelete`);
  the order in which `range` enumerates a map is left open by Go, so `GetString`
  takes that enumeration as an argument.
* A channel is the natural number naming it; sends and closes are recorded as events,
  blocking is not modelled.
* A run-time panic is `none`.
* The Go library calls the code makes (`bufio.Scanner`, `strings`, `strconv`, `bytes.Buffer`)
  are modelled next to the code that uses them.
-/

namespace TrainAgent

/-! ## Bytes and text -/

/-- Byte strings: the contents of a Go `string` or `[]byte`. -/
abbrev Bytes := List Nat

/-- The bytes of an ASCII string literal. -/
def str (s : String) : Bytes := s.toList.map Char.toNat

/-! ## Go maps -/

/-- Lookup `m[k]` with the comma-ok result as an option. -/
def mapGet {κ ν : Type} [DecidableEq κ] : List (κ × ν) → κ → Option ν
  | [], _ => none
  | (k', v) :: t, k => if k' = k then some v else mapGet t k

/-- Assignment `m[k] = v`: overwrites the entry of `k` or adds one. -/
def mapSet {κ ν : Type} [DecidableEq κ] : List (κ × ν) → κ → ν → List (κ × ν)
  | [], k, v => [(k, v)]
  | (k', v') :: t, k, v => if k' = k then (k, v) :: t else (k', v') :: mapSet t k v

/-- Removal `delete(m, k)`. -/
def mapDelete {κ ν : Type} [DecidableEq κ] : List (κ × ν) → κ → List (κ × ν)
  | [], _ => []
  | (k', v') :: t, k => if k' = k then mapDelete t k else (k', v') :: mapDelete t k

/-- The keys of a map. -/
def mapKeys {κ ν : Type} (m : List (κ × ν)) : List κ := m.map Prod.fst

/-! ## `strings.Split`, `strings.TrimSpace`, `strings.ToLower` -/

/-- The parts `strings.Split(s, sep)` returns for a one-byte separator: one more than
the number of separators in `s`. -/
def splitOn (sep : Nat) : Bytes → List Bytes
  | [] => [[]]
  | c :: rest =>
    if c = sep then [] :: splitOn sep rest
    else match splitOn sep rest with
      | p :: ps => (c :: p) :: ps
      | [] => [[c]]

/-- The text of `s` before its first `sep` (all of `s` when it has none). -/
def beforeSep (sep : Nat) (s : Bytes) : Bytes :=
  s.takeWhile (fun c => decide (c ≠ sep))

/-- The text of `s` after its first `sep` (empty when it has none). -/
def afterSep (sep : Nat) (s : Bytes) : Bytes :=
  (s.dropWhile (fun c => decide (c ≠ sep))).drop 1

/-- UTF-8 encodings of the runes for which `unicode.IsSpace` holds: tab, newline,
vertical tab, form feed, carriage return, space, U+0085, U+00A0, U+1680, U+2000 to
U+200A, U+2028, U+2029, U+202F, U+205F and U+3000. -/
def spaceRunes : List Bytes :=
  [[9], [10], [11], [12], [13], [32], [0xC2, 0x85], [0xC2, 0xA0], [0xE1, 0x9A, 0x80],
   [0xE2, 0x80, 0x80], [0xE2, 0x80, 0x81], [0xE2, 0x80, 0x82], [0xE2, 0x80, 0x83],
   [0xE2, 0x80, 0x84], [0xE2, 0x80, 0x85], [0xE2, 0x80, 0x86], [0xE2, 0x80, 0x87],
   [0xE2, 0x80, 0x88], [0xE2, 0x80, 0x89], [0xE2, 0x80, 0x8A], [0xE2, 0x80, 0xA8],
   [0xE2, 0x80, 0xA9], [0xE2, 0x80, 0xAF], [0xE2, 0x81, 0x9F], [0xE3, 0x80, 0x80]]

/-- Number of bytes of the white-space rune `s` starts with, 0 when it starts with none. -/
def leadingSpace (s : Bytes) : Nat :=
  match spaceRunes.find? (fun e => e.isPrefixOf s) with
  | some e => e.length
  | none => 0

/-- Number of bytes of the white-space rune `s` ends with, 0 when it ends with none. -/
def trailingSpace (s : Bytes) : Nat :=
  match spaceRunes.find? (fun e => e.reverse.isPrefixOf s.reverse) with
  | some e => e.length
  | none => 0

/-- Removes leading white-space runes, at most `n` of them. -/
def trimLeftN : Nat → Bytes → Bytes
  | 0, s => s
  | n + 1, s => if leadingSpace s = 0 then s else trimLeftN n (s.drop (leadingSpace s))

/-- Removes trailing white-space runes, at most `n` of them. -/
def trimRightN : Nat → Bytes → Bytes
  | 0, s => s
  | n + 1, s =>
    if trailingSpace s = 0 then s else trimRightN n (s.take (s.length - trailingSpace s))

/-- Go's `strings.TrimSpace`: all leading and trailing white space, as defined by
Unicode, removed. A byte that starts no valid encoding decodes to U+FFFD, which is
not white space, so trimming stops there. -/
def trimSpace (s : Bytes) : Bytes :=
  let t := trimLeftN s.length s
  trimRightN t.length t

/-- Go's `strings.ToLower`. Text of ASCII bytes only has `A`..`Z` mapped to `a`..`z`;
for text with a byte from 0x80 on the library maps `unicode.ToLower` over the runes,
which is the argument `lowerU`. -/
def toLower (lowerU : Bytes → Bytes) (s : Bytes) : Bytes :=
  if s.all (fun c => decide (c < 128)) then
    s.map (fun c => if 65 ≤ c ∧ c ≤ 90 then c + 32 else c)
  else lowerU s

/-! ## `strconv.ParseUint(s, 10, 64)` -/

/-- The digit loop of `strconv.ParseUint` for base 10 and 64 bits: the value and whether
an error is returned. A byte that is no digit gives `(0, error)`; overflow gives
`(2^64 - 1, error)` at the digit where it happens. -/
def parseUintLoop (n : Nat) : Bytes → Nat × Bool
  | [] => (n, false)
  | c :: rest =>
    if 48 ≤ c ∧ c ≤ 57 then
      if n ≥ (2 ^ 64 - 1) / 10 + 1 then (2 ^ 64 - 1, true)
      else if n * 10 + (c - 48) > 2 ^ 64 - 1 then (2 ^ 64 - 1, true)
      else parseUintLoop (n * 10 + (c - 48)) rest
    else (0, true)

/-- Go's `strconv.ParseUint(s, 10, 64)`: the value and whether `err != nil`. -/
def parseUint (s : Bytes) : Nat × Bool :=
  if s = [] then (0, true) else parseUintLoop 0 s

/-- Decimal digits of `n`, most significant first, in front of `acc`. -/
def decimalAux : Nat → Nat → Bytes → Bytes
  | 0, _, acc => acc
  | fuel + 1, n, acc =>
    if n / 10 = 0 then (48 + n % 10) :: acc
    else decimalAux fuel (n / 10) ((48 + n % 10) :: acc)

/-- The decimal text of `n`, as `strconv.Itoa` and `%d` write it. -/
def decimal (n : Nat) : Bytes := decimalAux (n + 1) n []

/-! ## `bufio.Scanner` with `bufio.ScanLines` -/

/-- Go's `bufio.MaxScanTokenSize`, the size the scanner's buffer grows to. -/
def maxScanTokenSize : Nat := 65536

/-- The `dropCR` of `bufio.ScanLines`: one trailing carriage return is dropped. -/
def dropCR (data : Bytes) : Bytes :=
  if data.getLast? = some 13 then data.dropLast else data

/-- The results of the successive `scanner.Scan()` calls on a reader that delivers the
given bytes and then end of file: `some line` for a call that returns true with that
token, `none` for a call that returns false; after the list every call returns false.
`cur` holds the bytes of the line read so far. A line that fills the buffer before its
newline arrives makes `Scan` fail (`ErrTooLong`); the call after that hands out the
buffered bytes as a last token. -/
def scanFrom (cur : Bytes) : Bytes → List (Option Bytes)
  | [] =>
    if cur = [] then []
    else if cur.length < maxScanTokenSize then [some (dropCR cur)]
    else [none, some (dropCR cur)]
  | c :: rest =>
    if maxScanTokenSize ≤ cur.length then [none, some (dropCR cur)]
    else if c = 10 then some (dropCR cur) :: scanFrom [] rest
    else scanFrom (cur ++ [c]) rest

/-! ## stomp.go: frames -/

/-- The struct `StompMessage`. -/
structure StompMessage where
  Body : Bytes
  Headers : List (Bytes × Bytes)
  Verb : Bytes
  deriving DecidableEq, Repr

/-- The method `GetString` (and `GetBytes`, its bytes). `order` is the enumeration
`range sm.Headers` yields, a permutation of the map's entries. -/
def GetString (sm : StompMessage) (order : List (Bytes × Bytes)) : Bytes :=
  let builder := sm.Verb ++ [10]
  let builder := order.foldl (fun b kv => b ++ (kv.1 ++ [58] ++ kv.2 ++ [10])) builder
  let builder := builder ++ [10]
  let builder := if sm.Body.length > 0 then builder ++ sm.Body else builder
  builder ++ [0, 10]

/-- Body of the first loop of `processReceive` for a non-empty line `text`. -/
def headerLine (lowerU : Bytes → Bytes) (headers : List (Bytes × Bytes)) (text : Bytes) :
    List (Bytes × Bytes) :=
  let parts := splitOn 58 text
  if parts.length > 1 then
    let key := toLower lowerU (trimSpace (parts.getD 0 []))
    let value := trimSpace (parts.getD 1 [])
    mapSet headers key value
  else headers

/-- The first loop of `processReceive`: lines up to the first empty one (or to the first
`Scan` that returns false) go through `headerLine`; returns the headers and what the
scanner still has to give. -/
def headerLoop (lowerU : Bytes → Bytes) (headers : List (Bytes × Bytes)) :
    List (Option Bytes) → List (Bytes × Bytes) × List (Option Bytes)
  | [] => (headers, [])
  | none :: rest => (headers, rest)
  | some text :: rest =>
    if text.length = 0 then (headers, rest)
    else headerLoop lowerU (headerLine lowerU headers text) rest

/-- The second loop of `processReceive`: every further token is appended to `bodyBuffer`,
until `Scan` returns false. -/
def bodyLoop (bodyBuffer : Bytes) : List (Option Bytes) → Bytes
  | [] => bodyBuffer
  | none :: _ => bodyBuffer
  | some token :: rest => bodyLoop (bodyBuffer ++ token) rest

/-- The slice expression `s[:n]` on a byte slice with contents `s` whose backing array
has `cap` bytes, zero behind `s`: a panic when `n` is beyond the capacity. -/
def sliceTo (s : Bytes) (cap n : Nat) : Option Bytes :=
  if n ≤ s.length then some (s.take n)
  else if n ≤ cap then some (s ++ List.replicate (n - s.length) 0)
  else none

/-- The capacity of `bodyBuffer.Bytes()`: 0 while nothing was written (the buffer starts
as `[]byte{}`), else what the runtime allotted when the buffer grew, `bufCap`, which is
never below the bytes written. -/
def bodyCap (bufCap : Nat) (body : Bytes) : Nat :=
  if body = [] then 0 else max bufCap body.length

/-- The function `processReceive` on the bytes the reader delivers; `messageType` is not
used by the function and left out. `none` is the slice-bounds panic of
`bodyBuffer.Bytes()[:length]`. The returned message has no `Verb` set. -/
def processReceive (lowerU : Bytes → Bytes) (bufCap : Nat) (input : Bytes) :
    Option StompMessage :=
  let scanned := headerLoop lowerU [] (scanFrom [] input)
  let headers := scanned.1
  let bodyBuffer := bodyLoop [] scanned.2
  let length : Nat :=
    match mapGet headers (str "content-length") with
    | some contentLength => (parseUint contentLength).1
    | none => 0
  if length > 0 then
    (sliceTo bodyBuffer (bodyCap bufCap bodyBuffer) length).map
      (fun b => { Headers := headers, Body := b, Verb := [] })
  else
    some { Headers := headers, Body := bodyBuffer, Verb := [] }

/-! ## stomp.go: the subscription registry -/

/-- A `uuid.UUID`, as the 128-bit number its sixteen bytes spell. -/
abbrev UUID := Nat

/-- A channel made by `make(chan ...)`; a nil channel is `none` of `Option Chan`. -/
abbrev Chan := Nat

/-- A Go `error` value; a nil error is `none` of `Option GoError`. -/
abbrev GoError := Nat

/-- The struct `StompConnection`: the registry; `conn.Write` is passed to the methods
that write, as the function from the frame to the error it returns. -/
structure StompConnection where
  subscriptions : List (UUID × Chan)
  deriving DecidableEq, Repr

/-- The method `subscribe`: the error of writing the SUBSCRIBE frame. `ack` is the
`ACK` constant, `AUTO = 1` and `CLIENT = 2`. -/
def subscribe (write : StompMessage → Option GoError) (dest idx : Bytes) (ack : Nat) :
    Option GoError :=
  let ackStr := if ack = 1 then str "auto" else if ack = 2 then str "client" else []
  write
    { Verb := str "SUBSCRIBE",
      Headers := [(str "id", idx), (str "destination", dest), (str "ack", ackStr)],
      Body := [] }

/-- The method `unsubscribe`: the error of writing the UNSUBSCRIBE frame. -/
def unsubscribe (write : StompMessage → Option GoError) (idx : Bytes) : Option GoError :=
  write { Verb := str "UNSUBSCRIBE", Headers := [(str "id", idx)], Body := [] }

/-- The method `AddSubscription`: the returned `(c, u, err)` and the connection
afterwards. `newUUID` is the result of `uuid.NewUUID()`, `uuidString` is `u.String()`,
`fresh` the channel `make` returns. -/
def AddSubscription (newUUID : Except GoError UUID) (uuidString : UUID → Bytes)
    (write : StompMessage → Option GoError) (fresh : Chan) (sc : StompConnection)
    (dest : Bytes) : (Option Chan × UUID × Option GoError) × StompConnection :=
  match newUUID with
  | .error e => ((none, 0, some e), sc)
  | .ok u =>
    if (subscribe write dest (uuidString u) 1).isSome then
      -- `return nil, u, err` with `err` still the nil of `uuid.NewUUID`
      ((none, u, none), sc)
    else
      ((some fresh, u, none), { subscriptions := mapSet sc.subscriptions u fresh })

/-- The method `RemoveSubscription`: the returned error, the connection afterwards and
the channels closed. `none` is the panic of `close` on the nil channel that the map
gives for an identifier without entry. -/
def RemoveSubscription (uuidString : UUID → Bytes) (write : StompMessage → Option GoError)
    (sc : StompConnection) (u : UUID) :
    Option (Option GoError × StompConnection × List Chan) :=
  if (unsubscribe write (uuidString u)).isSome then
    -- `return err` with the named result `err`, never assigned
    some (none, sc, [])
  else
    match mapGet sc.subscriptions u with
    | none => none
    | some c => some (none, { subscriptions := mapDelete sc.subscriptions u }, [c])

/-- The method `getSubscription`; `parse` is `uuid.Parse`, `none` for its error. -/
def getSubscription (parse : Bytes → Option UUID) (sc : StompConnection)
    (subscriptionId : Bytes) : Option Chan × Bool :=
  match parse subscriptionId with
  | none => (none, false)
  | some u =>
    match mapGet sc.subscriptions u with
    | some c => (some c, true)
    | none => (none, false)

/-- One iteration of the loop of `Listen`: `received` is what `conn.Reader` gave, an
error or the bytes of the message. Returns the connection afterwards and the sends
made, `(channel, message)` each; `none` when `processReceive` panics. -/
def ListenStep (lowerU : Bytes → Bytes) (bufCap : Nat) (parse : Bytes → Option UUID)
    (sc : StompConnection) (received : Except GoError Bytes) :
    Option (StompConnection × List (Chan × StompMessage)) :=
  match received with
  | .error _ => some (sc, [])
  | .ok input =>
    match processReceive lowerU bufCap input with
    | none => none
    | some sm =>
      match mapGet sm.Headers (str "subscription") with
      | none => some (sc, [])
      | some subscriptionId =>
        match getSubscription parse sc subscriptionId with
        | (some subscription, true) => some (sc, [(subscription, sm)])
        | _ => some (sc, [])

/-! ## serialConnection.go -/

/-- The struct `State`. -/
structure State where
  Cmd : Nat
  deriving DecidableEq, Repr

/-- The struct `SensorState`. -/
structure SensorState where
  Cmd : Nat
  Address : Nat
  States : List Nat
  deriving DecidableEq, Repr

/-- The struct `SerialConnection`: the listeners of each address. -/
structure SerialConnection where
  channels : List (Nat × List Chan)
  deriving DecidableEq, Repr

/-- The method `AddListenerForSensor`; `fresh` is the channel `make` returns. -/
def AddListenerForSensor (fresh : Chan) (sc : SerialConnection) (address : Nat) :
    SerialConnection × Chan :=
  let channel := fresh
  match mapGet sc.channels address with
  | some list => ({ channels := mapSet sc.channels address (list ++ [channel]) }, channel)
  | none => ({ channels := mapSet sc.channels address [channel] }, channel)

/-- A run of `AddListenerForSensor` calls, each with its address and the channel `make`
gave it. -/
def addListeners (sc : SerialConnection) (calls : List (Nat × Chan)) : SerialConnection :=
  calls.foldl (fun s call => (AddListenerForSensor call.2 s call.1).1) sc

/-- What the loop of `Listen` does with a line: calls of `callback` and sends. -/
inductive SerialEvent where
  | callback (line : Bytes)
  | send (c : Chan) (st : SensorState)
  deriving DecidableEq, Repr

/-- The body of the scanner loop of `Listen` for one line. `unmarshalState` and
`unmarshalSensor` are `json.Unmarshal` into a `State` and into a `SensorState`, `none`
for an error. -/
def listenLine (unmarshalState : Bytes → Option State)
    (unmarshalSensor : Bytes → Option SensorState) (sc : SerialConnection) (line : Bytes) :
    List SerialEvent :=
  match unmarshalState line with
  | none => []
  | some state =>
    SerialEvent.callback line ::
      (if state.Cmd = 4 then
        match unmarshalSensor line with
        | none => []
        | some sensorState =>
          match mapGet sc.channels sensorState.Address with
          | some channels => channels.map (fun value => SerialEvent.send value sensorState)
          | none => []
      else [])

/-- The listener list of an address: the map's entry, the empty list when absent. -/
def listeners (sc : SerialConnection) (address : Nat) : List Chan :=
  (mapGet sc.channels address).getD []

/-- The method `WriteMotorCommand`: the bytes handed to `SerialPort.Write`. `channel` and
`speed` are `uint8` values; the arithmetic is that of `byte`. -/
def WriteMotorCommand (channel speed : Nat) (isReversed : Bool) : Bytes :=
  let value0 := (speed / 0x40) % 256
  let value0 := if isReversed then (value0 + 0x04) % 256 else value0
  let value1 := (speed % 0x40) % 256
  [0x01, channel, value0, value1, 0xFF]

/-! ## Lemmas on maps -/

theorem mapGet_mapSet_self {κ ν : Type} [DecidableEq κ] (m : List (κ × ν)) (k : κ) (v : ν) :
    mapGet (mapSet m k v) k = some v := by
  induction m with
  | nil => simp [mapSet, mapGet]
  | cons e t ih =>
    obtain ⟨k', v'⟩ := e
    by_cases h : k' = k
    · simp [mapSet, mapGet, h]
    · simp [mapSet, mapGet, h, ih]

theorem mapGet_mapSet_ne {κ ν : Type} [DecidableEq κ] (m : List (κ × ν)) (k k₁ : κ) (v : ν)
    (hne : k₁ ≠ k) : mapGet (mapSet m k v) k₁ = mapGet m k₁ := by
  induction m with
  | nil => simp [mapSet, mapGet, Ne.symm hne]
  | cons e t ih =>
    obtain ⟨k', v'⟩ := e
    by_cases h : k' = k
    · subst h
      simp [mapSet, mapGet, Ne.symm hne]
    · by_cases h1 : k' = k₁
      · subst h1
        simp [mapSet, mapGet, h]
      · simp [mapSet, mapGet, h, h1, ih]

theorem mapGet_mapDelete_self {κ ν : Type} [DecidableEq κ] (m : List (κ × ν)) (k : κ) :
    mapGet (mapDelete m k) k = none := by
  induction m with
  | nil => simp [mapDelete, mapGet]
  | cons e t ih =>
    obtain ⟨k', v'⟩ := e
    by_cases h : k' = k
    · simp [mapDelete, h, ih]
    · simp [mapDelete, mapGet, h, ih]

theorem mapGet_mapDelete_ne {κ ν : Type} [DecidableEq κ] (m : List (κ × ν)) (k k₁ : κ)
    (hne : k₁ ≠ k) : mapGet (mapDelete m k) k₁ = mapGet m k₁ := by
  induction m with
  | nil => simp [mapDelete, mapGet]
  | cons e t ih =>
    obtain ⟨k', v'⟩ := e
    by_cases h : k' = k
    · subst h
      simp [mapDelete, mapGet, Ne.symm hne, ih]
    · by_cases h1 : k' = k₁
      · subst h1
        simp [mapDelete, mapGet, h]
      · simp [mapDelete, mapGet, h, h1, ih]

/-! ## Sensor fan-out -/

theorem listeners_AddListenerForSensor (fresh : Chan) (sc : SerialConnection)
    (address a : Nat) :
    listeners (AddListenerForSensor fresh sc address).1 a =
      if address = a then listeners sc a ++ [fresh] else listeners sc a := by
  unfold AddListenerForSensor listeners
  by_cases h : address = a
  · subst h
    cases hg : mapGet sc.channels address <;> simp [mapGet_mapSet_self]
  · have h' : a ≠ address := fun e => h e.symm
    cases hg : mapGet sc.channels address <;> simp [mapGet_mapSet_ne _ _ _ _ h', h]

theorem listeners_addListeners (calls : List (Nat × Chan)) (sc : SerialConnection) (a : Nat) :
    listeners (addListeners sc calls) a =
      listeners sc a ++ (calls.filter (fun call => decide (call.1 = a))).map Prod.snd := by
  induction calls generalizing sc with
  | nil => simp [addListeners]
  | cons call rest ih =>
    have hstep : addListeners sc (call :: rest) =
        addListeners (AddListenerForSensor call.2 sc call.1).1 rest := by
      simp [addListeners]
    rw [hstep, ih, listeners_AddListenerForSensor]
    by_cases h : call.1 = a
    · simp [h, List.filter_cons]
    · simp [h, List.filter_cons]

/-- C9. Each `AddListenerForSensor` call returns the channel it made, lengthens the list
of its address by that channel at the end and leaves the entry of every other address
as it was; after any run of calls the list of an address is what it was before followed
by the channels of the calls made for that address, in call order and without
deduplication (from the empty map of `OpenConnection`: exactly those channels); and for
a line that decodes to a `SensorState` with command 4 the loop of `Listen` sends that
state once to each channel of the list of its address, in list order, and to no other
channel. -/
theorem sensor_fanout_order (sc : SerialConnection) (calls : List (Nat × Chan)) (a : Nat) :
    (∀ fresh address,
      (AddListenerForSensor fresh sc address).2 = fresh ∧
      listeners (AddListenerForSensor fresh sc address).1 address =
        listeners sc address ++ [fresh] ∧
      ∀ other, other ≠ address →
        mapGet (AddListenerForSensor fresh sc address).1.channels other =
          mapGet sc.channels other) ∧
    listeners (addListeners sc calls) a =
      listeners sc a ++ (calls.filter (fun call => decide (call.1 = a))).map Prod.snd ∧
    listeners (addListeners { channels := [] } calls) a =
      (calls.filter (fun call => decide (call.1 = a))).map Prod.snd ∧
    (∀ unmarshalState unmarshalSensor line state sensorState,
      unmarshalState line = some state → state.Cmd = 4 →
      unmarshalSensor line = some sensorState → sensorState.Address = a →
      listenLine unmarshalState unmarshalSensor sc line =
        SerialEvent.callback line ::
          (listeners sc a).map (fun c => SerialEvent.send c sensorState)) := by
  refine ⟨?_, listeners_addListeners calls sc a, ?_, ?_⟩
  · intro fresh address
    refine ⟨?_, ?_, ?_⟩
    · unfold AddListenerForSensor
      cases mapGet sc.channels address <;> rfl
    · simp [listeners_AddListenerForSensor]
    · intro other hne
      unfold AddListenerForSensor
      cases mapGet sc.channels address <;> simp [mapGet_mapSet_ne _ _ _ _ hne]
  · rw [listeners_addListeners]
    simp [listeners, mapGet]
  · intro unmarshalState unmarshalSensor line state sensorState h1 h2 h3 h4
    subst h4
    unfold listenLine listeners
    rw [h1]
    simp only [h2, if_true, h3]
    cases mapGet sc.channels sensorState.Address <;> simp

/-- C9 at a concrete run: two listeners for address 0x10 and one for 0x11, registered
in the order 7, 8, 9; a sensor state for 0x10 goes to 7 and then to 9. -/
theorem sensor_fanout_order_witness :
    listeners (addListeners { channels := [] } [(0x10, 7), (0x11, 8), (0x10, 9)]) 0x10 =
      [7, 9] ∧
    listenLine (fun _ => some { Cmd := 4 })
        (fun _ => some { Cmd := 4, Address := 0x10, States := [1, 0] })
        (addListeners { channels := [] } [(0x10, 7), (0x11, 8), (0x10, 9)]) (str "x") =
      [SerialEvent.callback (str "x"),
       SerialEvent.send 7 { Cmd := 4, Address := 0x10, States := [1, 0] },
       SerialEvent.send 9 { Cmd := 4, Address := 0x10, States := [1, 0] }] := by
  have h := sensor_fanout_order
    (addListeners { channels := [] } [(0x10, 7), (0x11, 8), (0x10, 9)])
    [(0x10, 7), (0x11, 8), (0x10, 9)] 0x10
  refine ⟨h.2.2.1, ?_⟩
  have h4 := h.2.2.2 (fun _ => some { Cmd := 4 })
    (fun _ => some { Cmd := 4, Address := 0x10, States := [1, 0] }) (str "x")
    { Cmd := 4 } { Cmd := 4, Address := 0x10, States := [1, 0] } rfl rfl rfl rfl
  rw [h4]
  decide

/-! ## Header parsing -/

theorem splitOn_cases (sep : Nat) (s : Bytes) :
    ∃ ps, splitOn sep s = beforeSep sep s :: ps ∧
      (sep ∉ s → ps = []) ∧ (sep ∈ s → ps = splitOn sep (afterSep sep s)) := by
  induction s with
  | nil => exact ⟨[], by simp [splitOn, beforeSep], by simp, by simp⟩
  | cons c rest ih =>
    obtain ⟨ps, h1, h2, h3⟩ := ih
    by_cases hc : c = sep
    · subst hc
      exact ⟨splitOn c rest, by simp [splitOn, beforeSep], by simp, by simp [afterSep]⟩
    · refine ⟨ps, ?_, ?_, ?_⟩
      · simp [splitOn, hc, h1, beforeSep]
      · intro hn
        apply h2
        intro hm
        exact hn (List.mem_cons_of_mem _ hm)
      · intro hm
        have hm' : sep ∈ rest := by
          rcases List.mem_cons.mp hm with h | h
          · exact absurd h.symm hc
          · exact h
        rw [h3 hm']
        simp [afterSep, hc]

theorem splitOn_length (sep : Nat) (s : Bytes) : 1 < (splitOn sep s).length ↔ sep ∈ s := by
  obtain ⟨ps, h1, h2, h3⟩ := splitOn_cases sep s
  constructor
  · intro h
    by_contra hn
    rw [h1, h2 hn] at h
    simp at h
  · intro hm
    obtain ⟨qs, k1, _, _⟩ := splitOn_cases sep (afterSep sep s)
    rw [h1, h3 hm, k1]
    simp

theorem splitOn_part0 (sep : Nat) (s : Bytes) :
    (splitOn sep s).getD 0 [] = beforeSep sep s := by
  obtain ⟨ps, h1, _, _⟩ := splitOn_cases sep s
  rw [h1]
  rfl

theorem splitOn_part1 (sep : Nat) (s : Bytes) (hm : sep ∈ s) :
    (splitOn sep s).getD 1 [] = beforeSep sep (afterSep sep s) := by
  obtain ⟨ps, h1, _, h3⟩ := splitOn_cases sep s
  obtain ⟨qs, k1, _, _⟩ := splitOn_cases sep (afterSep sep s)
  rw [h1, h3 hm, k1]
  rfl

theorem headerLine_of_mem (lowerU : Bytes → Bytes) (headers : List (Bytes × Bytes))
    (text : Bytes) (hm : 58 ∈ text) :
    headerLine lowerU headers text =
      mapSet headers (toLower lowerU (trimSpace (beforeSep 58 text)))
        (trimSpace (beforeSep 58 (afterSep 58 text))) := by
  unfold headerLine
  simp only [splitOn_part0, splitOn_part1 58 text hm]
  rw [if_pos (by simpa using (splitOn_length 58 text).mpr hm)]

theorem headerLine_of_not_mem (lowerU : Bytes → Bytes) (headers : List (Bytes × Bytes))
    (text : Bytes) (hm : 58 ∉ text) : headerLine lowerU headers text = headers := by
  unfold headerLine
  have h : ¬ 1 < (splitOn 58 text).length := fun h => hm ((splitOn_length 58 text).mp h)
  simp only
  rw [if_neg (by simpa using h)]

theorem headerLoop_lines (lowerU : Bytes → Bytes) (lines : List Bytes)
    (headers : List (Bytes × Bytes)) (rest : List (Option Bytes))
    (hne : ∀ l ∈ lines, l ≠ []) :
    headerLoop lowerU headers (lines.map some ++ some [] :: rest) =
      (lines.foldl (headerLine lowerU) headers, rest) := by
  induction lines generalizing headers with
  | nil => simp [headerLoop]
  | cons l t ih =>
    have hl : l ≠ [] := hne l (List.mem_cons_self _ _)
    have hlen : ¬ l.length = 0 := by
      intro h
      exact hl (List.length_eq_zero.mp h)
    simp only [List.map_cons, List.cons_append, headerLoop, hlen, if_false, List.foldl_cons]
    exact ih _ (fun x hx => hne x (List.mem_cons_of_mem _ hx))

/-- C4 fails as stated: for the header line `a:b:c` the entry stored under `a` is `b`,
the text up to the second `:`, and not `b:c`, everything after the first `:`. -/
theorem headerLine_value_counterexample :
    58 ∈ str "a:b:c" ∧
    trimSpace (afterSep 58 (str "a:b:c")) = str "b:c" ∧
    headerLine id [] (str "a:b:c") = [(str "a", str "b")] ∧
    processReceive id 0 (str "MESSAGE\na:b:c\n\n" ++ [0, 10]) =
      some { Body := [0], Headers := [(str "a", str "b")], Verb := [] } := by
  decide

/-- C4 as amended. In `processReceive` the lines before the first empty line each go
through the header step; a line with a `:` sets the entry whose key is the lower-cased,
trimmed text before the first `:` and whose value is the trimmed text between the first
`:` and the next `:` (the end of the line when there is no second `:`), every other
entry kept; a line without `:` adds no entry. -/
theorem headerLine_entry (lowerU : Bytes → Bytes) (headers : List (Bytes × Bytes))
    (text : Bytes) :
    (58 ∈ text →
      headerLine lowerU headers text =
        mapSet headers (toLower lowerU (trimSpace (beforeSep 58 text)))
          (trimSpace (beforeSep 58 (afterSep 58 text))) ∧
      mapGet (headerLine lowerU headers text)
          (toLower lowerU (trimSpace (beforeSep 58 text))) =
        some (trimSpace (beforeSep 58 (afterSep 58 text))) ∧
      ∀ key, key ≠ toLower lowerU (trimSpace (beforeSep 58 text)) →
        mapGet (headerLine lowerU headers text) key = mapGet headers key) ∧
    (58 ∉ text → headerLine lowerU headers text = headers) ∧
    (∀ (lines : List Bytes) (rest : List (Option Bytes)), (∀ l ∈ lines, l ≠ []) →
      headerLoop lowerU headers (lines.map some ++ some [] :: rest) =
        (lines.foldl (headerLine lowerU) headers, rest)) := by
  refine ⟨?_, headerLine_of_not_mem lowerU headers text, ?_⟩
  · intro hm
    rw [headerLine_of_mem lowerU headers text hm]
    exact ⟨rfl, mapGet_mapSet_self _ _ _, fun key hne => mapGet_mapSet_ne _ _ _ _ hne⟩
  · intro lines rest hne
    exact headerLoop_lines lowerU lines headers rest hne

/-- C4 as amended, at the line `Content-Type : text/plain:x`. -/
theorem headerLine_entry_witness :
    headerLine id [] (str "Content-Type : text/plain:x") =
      [(str "content-type", str "text/plain")] := by
  have h := ((headerLine_entry id [] (str "Content-Type : text/plain:x")).1 (by decide)).1
  rw [h]
  decide

/-! ## Frame encoding -/

theorem foldl_header_lines (order : List (Bytes × Bytes)) (start : Bytes) :
    order.foldl (fun b kv => b ++ (kv.1 ++ [58] ++ kv.2 ++ [10])) start =
      start ++ (order.map (fun kv => kv.1 ++ [58] ++ kv.2 ++ [10])).flatten := by
  induction order generalizing start with
  | nil => simp
  | cons e t ih =>
    rw [List.foldl_cons, ih, List.map_cons, List.flatten_cons, List.append_assoc]

theorem GetString_eq (sm : StompMessage) (order : List (Bytes × Bytes)) :
    GetString sm order =
      sm.Verb ++ [10] ++ (order.map (fun kv => kv.1 ++ [58] ++ kv.2 ++ [10])).flatten ++
        [10] ++ sm.Body ++ [0, 10] := by
  unfold GetString
  simp only [foldl_header_lines]
  by_cases h : sm.Body.length > 0
  · simp [h]
  · have hb : sm.Body = [] := by
      cases hB : sm.Body with
      | nil => rfl
      | cons c t => simp [hB] at h
    simp [hb]

/-- C10 fails as stated: for a frame with the two headers `a:1` and `b:2` the map may be
enumerated in either order, and the two enumerations give different strings, so two
calls of `GetString` on the same frame need not return the same string. -/
theorem GetString_order_counterexample :
    List.Perm [(str "a", str "1"), (str "b", str "2")]
      (StompMessage.mk (str "x") [(str "a", str "1"), (str "b", str "2")] (str "SEND")).Headers ∧
    List.Perm [(str "b", str "2"), (str "a", str "1")]
      (StompMessage.mk (str "x") [(str "a", str "1"), (str "b", str "2")] (str "SEND")).Headers ∧
    GetString (StompMessage.mk (str "x") [(str "a", str "1"), (str "b", str "2")] (str "SEND"))
      [(str "a", str "1"), (str "b", str "2")] = str "SEND\na:1\nb:2\n\nx" ++ [0, 10] ∧
    GetString (StompMessage.mk (str "x") [(str "a", str "1"), (str "b", str "2")] (str "SEND"))
      [(str "b", str "2"), (str "a", str "1")] = str "SEND\nb:2\na:1\n\nx" ++ [0, 10] ∧
    GetString (StompMessage.mk (str "x") [(str "a", str "1"), (str "b", str "2")] (str "SEND"))
      [(str "a", str "1"), (str "b", str "2")] ≠
    GetString (StompMessage.mk (str "x") [(str "a", str "1"), (str "b", str "2")] (str "SEND"))
      [(str "b", str "2"), (str "a", str "1")] := by
  refine ⟨List.Perm.refl _, List.Perm.swap _ _ _, by decide, by decide, by decide⟩

/-- C10 as amended. For every frame and every order in which `range` enumerates its
headers, `GetString` is the verb and a newline, then one line `key:value` for each header
entry, each entry exactly once, in that order, then an empty line, the body bytes and
the terminator NUL newline; the string is fixed by the frame and the enumeration order,
and by the frame alone when it has at most one header. -/
theorem GetString_format (sm : StompMessage) (order : List (Bytes × Bytes))
    (horder : order.Perm sm.Headers) :
    GetString sm order =
      sm.Verb ++ [10] ++ (order.map (fun kv => kv.1 ++ [58] ++ kv.2 ++ [10])).flatten ++
        [10] ++ sm.Body ++ [0, 10] ∧
    (∀ entry, order.count entry = sm.Headers.count entry) ∧
    (sm.Headers.length ≤ 1 → GetString sm order = GetString sm sm.Headers) := by
  refine ⟨GetString_eq sm order, fun entry => horder.countP_eq _, ?_⟩
  intro hlen
  have : order = sm.Headers := by
    cases hH : sm.Headers with
    | nil => rw [hH] at horder; exact List.Perm.eq_nil horder
    | cons e t =>
      cases t with
      | nil => rw [hH] at horder; exact List.perm_singleton.mp horder
      | cons e' t' => simp [hH] at hlen
  rw [this]

/-- C10 as amended, at a SEND frame with two headers enumerated in reverse. -/
theorem GetString_format_witness :
    GetString (StompMessage.mk (str "x") [(str "a", str "1"), (str "b", str "2")] (str "SEND"))
      [(str "b", str "2"), (str "a", str "1")] = str "SEND\nb:2\na:1\n\nx" ++ [0, 10] := by
  have h := (GetString_format
    (StompMessage.mk (str "x") [(str "a", str "1"), (str "b", str "2")] (str "SEND"))
    [(str "b", str "2"), (str "a", str "1")] (List.Perm.swap _ _ _)).1
  rw [h]
  decide

/-! ## Subscribe, unsubscribe and dispatch -/

/-- C5 fails as stated: with a connection whose writes fail, `AddSubscription` on the
empty registry returns the nil channel and stores nothing under the identifier it
returns. -/
theorem AddSubscription_write_failure_counterexample :
    subscribe (fun _ => some 1) (str "/topic/sensor") (str "u5") 1 = some 1 ∧
    (AddSubscription (.ok 5) (fun _ => str "u5") (fun _ => some 1) 9
      { subscriptions := [] } (str "/topic/sensor")).1.1 = none ∧
    (AddSubscription (.ok 5) (fun _ => str "u5") (fun _ => some 1) 9
      { subscriptions := [] } (str "/topic/sensor")).1.2.1 = 5 ∧
    mapGet (AddSubscription (.ok 5) (fun _ => str "u5") (fun _ => some 1) 9
      { subscriptions := [] } (str "/topic/sensor")).2.subscriptions 5 = none := by
  decide

/-- C5 as amended. When the SUBSCRIBE frame write inside `AddSubscription` fails, the
call returns the nil channel together with the generated identifier and leaves the
registry as it was; when the write succeeds it returns the new channel, which is then
the registry's entry under the returned identifier. -/
theorem AddSubscription_write_failure (u : UUID) (uuidString : UUID → Bytes)
    (write : StompMessage → Option GoError) (fresh : Chan) (sc : StompConnection)
    (dest : Bytes) :
    (subscribe write dest (uuidString u) 1 ≠ none →
      (AddSubscription (.ok u) uuidString write fresh sc dest).1.1 = none ∧
      (AddSubscription (.ok u) uuidString write fresh sc dest).1.2.1 = u ∧
      (AddSubscription (.ok u) uuidString write fresh sc dest).2 = sc) ∧
    (subscribe write dest (uuidString u) 1 = none →
      (AddSubscription (.ok u) uuidString write fresh sc dest).1 = (some fresh, u, none) ∧
      mapGet (AddSubscription (.ok u) uuidString write fresh sc dest).2.subscriptions u =
        some fresh) := by
  constructor
  · intro h
    have h' : (subscribe write dest (uuidString u) 1).isSome = true := by
      cases hs : subscribe write dest (uuidString u) 1 with
      | none => exact absurd hs h
      | some e => rfl
    simp [AddSubscription, h']
  · intro h
    simp [AddSubscription, h, mapGet_mapSet_self]

/-- C5 as amended, at a connection whose writes fail and a registry with one entry. -/
theorem AddSubscription_write_failure_witness :
    (AddSubscription (.ok 5) (fun _ => str "u5") (fun _ => some 1) 9
      { subscriptions := [(3, 4)] } (str "/topic/sensor")).1.1 = none ∧
    (AddSubscription (.ok 5) (fun _ => str "u5") (fun _ => some 1) 9
      { subscriptions := [(3, 4)] } (str "/topic/sensor")).1.2.1 = 5 ∧
    (AddSubscription (.ok 5) (fun _ => str "u5") (fun _ => some 1) 9
      { subscriptions := [(3, 4)] } (str "/topic/sensor")).2 = { subscriptions := [(3, 4)] } :=
  (AddSubscription_write_failure 5 (fun _ => str "u5") (fun _ => some 1) 9
    { subscriptions := [(3, 4)] } (str "/topic/sensor")).1 (by decide)

/-- C6 fails as stated: with a connection whose writes fail, `RemoveSubscription` of a
registered identifier returns with the entry still in the registry and no channel
closed. -/
theorem RemoveSubscription_write_failure_counterexample :
    unsubscribe (fun _ => some 1) (str "u5") = some 1 ∧
    mapGet (StompConnection.mk [(5, 9)]).subscriptions 5 = some 9 ∧
    RemoveSubscription (fun _ => str "u5") (fun _ => some 1) { subscriptions := [(5, 9)] } 5 =
      some (none, { subscriptions := [(5, 9)] }, []) := by
  decide

/-- C6 as amended. When the UNSUBSCRIBE frame write inside `RemoveSubscription` fails,
the call returns with the registry as it was and no channel closed; when the write
succeeds and `u` is registered, the channel of `u` is closed and the entry of `u` is
gone from the registry, every other entry kept. -/
theorem RemoveSubscription_write_failure (uuidString : UUID → Bytes)
    (write : StompMessage → Option GoError) (sc : StompConnection) (u : UUID) (c : Chan)
    (hreg : mapGet sc.subscriptions u = some c) :
    (unsubscribe write (uuidString u) ≠ none →
      ∃ err, RemoveSubscription uuidString write sc u = some (err, sc, [])) ∧
    (unsubscribe write (uuidString u) = none →
      ∃ err sc', RemoveSubscription uuidString write sc u = some (err, sc', [c]) ∧
        mapGet sc'.subscriptions u = none ∧
        ∀ other, other ≠ u → mapGet sc'.subscriptions other = mapGet sc.subscriptions other) := by
  constructor
  · intro h
    have h' : (unsubscribe write (uuidString u)).isSome = true := by
      cases hs : unsubscribe write (uuidString u) with
      | none => exact absurd hs h
      | some e => rfl
    exact ⟨none, by simp [RemoveSubscription, h']⟩
  · intro h
    refine ⟨none, { subscriptions := mapDelete sc.subscriptions u }, ?_, ?_, ?_⟩
    · simp [RemoveSubscription, h, hreg]
    · exact mapGet_mapDelete_self _ _
    · intro other hne
      exact mapGet_mapDelete_ne _ _ _ hne

/-- C6 as amended, at a connection whose writes fail and a registry holding `u = 5`. -/
theorem RemoveSubscription_write_failure_witness :
    ∃ err, RemoveSubscription (fun _ => str "u5") (fun _ => some 1)
      { subscriptions := [(5, 9)] } 5 = some (err, { subscriptions := [(5, 9)] }, []) :=
  (RemoveSubscription_write_failure (fun _ => str "u5") (fun _ => some 1)
    { subscriptions := [(5, 9)] } 5 9 (by decide)).1 (by decide)

/-- C8. For every registry and every received frame `sm` with a subscription header `s`,
one iteration of `Listen` leaves the registry unchanged and sends `sm` exactly once, on
the channel registered under the identifier `s` parses to, and on no other channel;
when `s` does not parse or parses to an identifier without entry, nothing is sent. -/
theorem ListenStep_dispatch (lowerU : Bytes → Bytes) (bufCap : Nat)
    (parse : Bytes → Option UUID) (sc : StompConnection) (input : Bytes)
    (sm : StompMessage) (s : Bytes)
    (hrecv : processReceive lowerU bufCap input = some sm)
    (hsub : mapGet sm.Headers (str "subscription") = some s) :
    (∀ u c, parse s = some u → mapGet sc.subscriptions u = some c →
      ListenStep lowerU bufCap parse sc (.ok input) = some (sc, [(c, sm)])) ∧
    (parse s = none →
      ListenStep lowerU bufCap parse sc (.ok input) = some (sc, [])) ∧
    (∀ u, parse s = some u → mapGet sc.subscriptions u = none →
      ListenStep lowerU bufCap parse sc (.ok input) = some (sc, [])) := by
  refine ⟨?_, ?_, ?_⟩
  · intro u c hp hg
    simp [ListenStep, hrecv, hsub, getSubscription, hp, hg]
  · intro hp
    simp [ListenStep, hrecv, hsub, getSubscription, hp]
  · intro u hp hg
    simp [ListenStep, hrecv, hsub, getSubscription, hp, hg]

/-- C8 at a registry with two entries: a MESSAGE frame for the subscription that parses
to 7 goes to channel 1 only. -/
theorem ListenStep_dispatch_witness :
    ListenStep id 0 (fun t => if t = str "seven" then some 7 else none)
      { subscriptions := [(7, 1), (8, 2)] }
      (.ok (str "MESSAGE\nsubscription:seven\n\nhi" ++ [0, 10])) =
    some ({ subscriptions := [(7, 1), (8, 2)] },
      [(1, { Body := str "hi" ++ [0], Headers := [(str "subscription", str "seven")],
             Verb := [] })]) :=
  (ListenStep_dispatch id 0 (fun t => if t = str "seven" then some 7 else none)
    { subscriptions := [(7, 1), (8, 2)] }
    (str "MESSAGE\nsubscription:seven\n\nhi" ++ [0, 10])
    { Body := str "hi" ++ [0], Headers := [(str "subscription", str "seven")], Verb := [] }
    (str "seven") (by decide) (by decide)).1 7 1 (by decide) (by decide)

/-! ## Motor command encoding -/

/-- C7. For every channel and speed in 0..255 and every reversed flag, `WriteMotorCommand`
writes exactly the five bytes `[0x01, channel, speed / 64 + (4 if reversed else 0),
speed mod 64, 0xFF]`. -/
theorem WriteMotorCommand_bytes (channel speed : Nat) (isReversed : Bool)
    (hc : channel < 256) (hs : speed < 256) :
    WriteMotorCommand channel speed isReversed =
      [0x01, channel, speed / 64 + (if isReversed then 4 else 0), speed % 64, 0xFF] ∧
    (WriteMotorCommand channel speed isReversed).length = 5 ∧
    ∀ b ∈ WriteMotorCommand channel speed isReversed, b < 256 := by
  have h1 : speed / 64 < 4 := by omega
  have h2 : speed % 64 < 64 := Nat.mod_lt _ (by norm_num)
  cases isReversed <;>
    simp [WriteMotorCommand, Nat.mod_eq_of_lt (show speed / 64 < 256 by omega),
      Nat.mod_eq_of_lt (show speed % 64 < 256 by omega),
      Nat.mod_eq_of_lt (show speed / 64 + 4 < 256 by omega)] <;> omega

/-- C7, the example of the specification: channel 3, speed 130, reversed gives
`[0x01, 0x03, 0x06, 0x02, 0xFF]`. -/
theorem WriteMotorCommand_bytes_witness :
    WriteMotorCommand 3 130 true = [0x01, 0x03, 0x06, 0x02, 0xFF] :=
  (WriteMotorCommand_bytes 3 130 true (by decide) (by decide)).1

/-! ## Lemmas on the scanner -/

theorem scanFrom_line (l : Bytes) (cur rest : Bytes) (hnl : 10 ∉ l)
    (hlen : (cur ++ l).length < maxScanTokenSize) :
    scanFrom cur (l ++ 10 :: rest) = some (dropCR (cur ++ l)) :: scanFrom [] rest := by
  induction l generalizing cur with
  | nil =>
    have h : ¬ maxScanTokenSize ≤ cur.length := by simpa using hlen
    simp [scanFrom, h]
  | cons c t ih =>
    have hc : c ≠ 10 := fun e => hnl (by simp [e])
    have ht : 10 ∉ t := fun e => hnl (List.mem_cons_of_mem _ e)
    have h : ¬ maxScanTokenSize ≤ cur.length := by
      simp only [List.length_append, List.length_cons] at hlen
      omega
    have h2 : ((cur ++ [c]) ++ t).length < maxScanTokenSize := by
      simpa using hlen
    rw [List.cons_append, scanFrom, if_neg h, if_neg hc, ih (cur ++ [c]) ht h2]
    simp

theorem scanFrom_lines (lines : List Bytes) (rest : Bytes)
    (hnl : ∀ l ∈ lines, 10 ∉ l) (hlen : ∀ l ∈ lines, l.length < maxScanTokenSize) :
    scanFrom [] ((lines.map (fun l => l ++ [10])).flatten ++ rest) =
      lines.map (fun l => some (dropCR l)) ++ scanFrom [] rest := by
  induction lines with
  | nil => simp
  | cons l t ih =>
    have h1 := scanFrom_line l [] ((t.map (fun l => l ++ [10])).flatten ++ rest)
      (hnl l (List.mem_cons_self _ _)) (by simpa using hlen l (List.mem_cons_self _ _))
    simp only [List.map_cons, List.flatten_cons, List.append_assoc, List.singleton_append,
      List.cons_append, List.nil_append]
    simp only [List.nil_append] at h1
    rw [h1, ih (fun x hx => hnl x (List.mem_cons_of_mem _ hx))
      (fun x hx => hlen x (List.mem_cons_of_mem _ hx))]

theorem dropCR_of_getLast (data : Bytes) (h : data.getLast? ≠ some 13) : dropCR data = data := by
  simp [dropCR, h]

/-! ## Lemmas on `trimSpace` -/

theorem spaceRunes_pos : ∀ e ∈ spaceRunes, 0 < e.length := by decide

theorem trailingSpace_eq_zero (s : Bytes) (h : trailingSpace s = 0) :
    ∀ e ∈ spaceRunes, e.reverse.isPrefixOf s.reverse = false := by
  intro e he
  unfold trailingSpace at h
  cases hf : spaceRunes.find? (fun e => e.reverse.isPrefixOf s.reverse) with
  | none =>
    exact Bool.eq_false_iff.mpr (List.find?_eq_none.mp hf e he)
  | some e' =>
    rw [hf] at h
    have hm := List.mem_of_find?_eq_some hf
    have hpos := spaceRunes_pos e' hm
    have h' : e'.length = 0 := h
    omega

theorem leadingSpace_eq_zero_of (s : Bytes)
    (h : ∀ e ∈ spaceRunes, e.isPrefixOf s = false) : leadingSpace s = 0 := by
  unfold leadingSpace
  have : spaceRunes.find? (fun e => e.isPrefixOf s) = none := by
    apply List.find?_eq_none.mpr
    intro e he
    simp [h e he]
  rw [this]

theorem trailingSpace_eq_zero_of (s : Bytes)
    (h : ∀ e ∈ spaceRunes, e.reverse.isPrefixOf s.reverse = false) : trailingSpace s = 0 := by
  unfold trailingSpace
  have : spaceRunes.find? (fun e => e.reverse.isPrefixOf s.reverse) = none := by
    apply List.find?_eq_none.mpr
    intro e he
    simp [h e he]
  rw [this]

theorem trimRightN_trailing (n : Nat) (s : Bytes) (hn : s.length ≤ n) :
    trailingSpace (trimRightN n s) = 0 := by
  induction n generalizing s with
  | zero =>
    have : s = [] := List.length_eq_zero.mp (by omega)
    subst this
    decide
  | succ n ih =>
    unfold trimRightN
    by_cases h : trailingSpace s = 0
    · simp [h]
    · simp only [h, if_false]
      apply ih
      have hs : s ≠ [] := by
        intro e
        subst e
        exact h (by decide)
      have hpos : 0 < s.length := List.length_pos.mpr hs
      rw [List.length_take]
      omega

theorem trimSpace_trailing (s : Bytes) : trailingSpace (trimSpace s) = 0 :=
  trimRightN_trailing _ _ (Nat.le_refl _)

theorem getLast_ne_cr_of_trimmed (v : Bytes) (h : trimSpace v = v) :
    v.getLast? ≠ some 13 := by
  intro hl
  obtain ⟨ys, hy⟩ := List.getLast?_eq_some_iff.mp hl
  have h0 : trailingSpace v = 0 := by
    have := trimSpace_trailing v
    rwa [h] at this
  have h13 := trailingSpace_eq_zero v h0 [13] (by decide)
  rw [hy] at h13
  simp [List.isPrefixOf] at h13


/-! ## Lemmas on header lines -/

theorem beforeSep_of_not_mem (sep : Nat) (s : Bytes) (h : sep ∉ s) : beforeSep sep s = s := by
  unfold beforeSep
  apply List.takeWhile_eq_self_iff.mpr
  intro x hx
  have : x ≠ sep := fun e => h (e ▸ hx)
  simpa using this

theorem beforeSep_append (sep : Nat) (k v : Bytes) (h : sep ∉ k) :
    beforeSep sep (k ++ sep :: v) = k := by
  induction k with
  | nil => simp [beforeSep]
  | cons c t ih =>
    have hc : c ≠ sep := fun e => h (by simp [e])
    have ht : sep ∉ t := fun e => h (List.mem_cons_of_mem _ e)
    have := ih ht
    simp only [beforeSep] at this ⊢
    rw [List.cons_append, List.takeWhile_cons_of_pos (by simpa using hc), this]

theorem afterSep_append (sep : Nat) (k v : Bytes) (h : sep ∉ k) :
    afterSep sep (k ++ sep :: v) = v := by
  induction k with
  | nil => simp [afterSep]
  | cons c t ih =>
    have hc : c ≠ sep := fun e => h (by simp [e])
    have ht : sep ∉ t := fun e => h (List.mem_cons_of_mem _ e)
    have := ih ht
    simp only [afterSep] at this ⊢
    rw [List.cons_append, List.dropWhile_cons_of_pos (by simpa using hc), this]

theorem headerLine_key_value (lowerU : Bytes → Bytes) (headers : List (Bytes × Bytes))
    (k v : Bytes) (hk : 58 ∉ k) (hv : 58 ∉ v) (hkey : toLower lowerU (trimSpace k) = k)
    (hval : trimSpace v = v) :
    headerLine lowerU headers (k ++ 58 :: v) = mapSet headers k v := by
  rw [headerLine_of_mem lowerU headers (k ++ 58 :: v) (by simp), beforeSep_append 58 k v hk,
    afterSep_append 58 k v hk, beforeSep_of_not_mem 58 v hv, hkey, hval]

theorem dropCR_key_value (k v : Bytes) (hval : trimSpace v = v) :
    dropCR (k ++ 58 :: v) = k ++ 58 :: v := by
  apply dropCR_of_getLast
  cases v with
  | nil =>
    rw [List.getLast?_append]
    simp
  | cons c t =>
    have h := getLast_ne_cr_of_trimmed (c :: t) hval
    intro hl
    apply h
    rw [List.getLast?_append] at hl
    simp only [List.getLast?_cons_cons] at hl
    cases hc : (c :: t).getLast? with
    | none => simp at hc
    | some x =>
      rw [hc] at hl
      simpa using hl

theorem foldl_headerLine (lowerU : Bytes → Bytes) (order : List (Bytes × Bytes))
    (headers : List (Bytes × Bytes))
    (h : ∀ kv ∈ order, 58 ∉ kv.1 ∧ 58 ∉ kv.2 ∧ toLower lowerU (trimSpace kv.1) = kv.1 ∧
      trimSpace kv.2 = kv.2) :
    (order.map (fun kv => kv.1 ++ 58 :: kv.2)).foldl (headerLine lowerU) headers =
      order.foldl (fun m kv => mapSet m kv.1 kv.2) headers := by
  induction order generalizing headers with
  | nil => rfl
  | cons e t ih =>
    obtain ⟨h1, h2, h3, h4⟩ := h e (List.mem_cons_self _ _)
    simp only [List.map_cons, List.foldl_cons]
    rw [headerLine_key_value lowerU headers e.1 e.2 h1 h2 h3 h4]
    exact ih _ (fun kv hkv => h kv (List.mem_cons_of_mem _ hkv))

/-! ## Lemmas on maps with unique keys -/

theorem mapSet_of_not_mem {κ ν : Type} [DecidableEq κ] (m : List (κ × ν)) (k : κ) (v : ν)
    (h : k ∉ mapKeys m) : mapSet m k v = m ++ [(k, v)] := by
  induction m with
  | nil => rfl
  | cons e t ih =>
    obtain ⟨k', v'⟩ := e
    have hne : k' ≠ k := fun e => h (by simp [mapKeys, e])
    have ht : k ∉ mapKeys t := fun e => h (by
      simp only [mapKeys, List.map_cons, List.mem_cons]
      exact Or.inr e)
    simp [mapSet, hne, ih ht]

theorem foldl_mapSet_nodup {κ ν : Type} [DecidableEq κ] (order init : List (κ × ν))
    (h : (mapKeys (init ++ order)).Nodup) :
    order.foldl (fun m kv => mapSet m kv.1 kv.2) init = init ++ order := by
  induction order generalizing init with
  | nil => simp
  | cons e t ih =>
    have hk : e.1 ∉ mapKeys init := by
      intro hm
      simp only [mapKeys, List.map_append, List.map_cons] at h
      have := (List.nodup_append.mp h).2.2
      exact this hm (List.mem_cons_self _ _)
    simp only [List.foldl_cons]
    rw [mapSet_of_not_mem init e.1 e.2 hk]
    have h' : (mapKeys ((init ++ [(e.1, e.2)]) ++ t)).Nodup := by
      simpa [mapKeys] using h
    rw [ih _ h']
    simp

theorem mapGet_eq_none_iff {κ ν : Type} [DecidableEq κ] (m : List (κ × ν)) (k : κ) :
    mapGet m k = none ↔ k ∉ mapKeys m := by
  induction m with
  | nil => simp [mapGet, mapKeys]
  | cons e t ih =>
    obtain ⟨k', v'⟩ := e
    by_cases h : k' = k
    · simp [mapGet, mapKeys, h]
    · have h' : ¬ k = k' := fun e => h e.symm
      simp only [mapGet, h, if_false, ih, mapKeys, List.map_cons, List.mem_cons, h', false_or]

theorem mapGet_eq_some_iff {κ ν : Type} [DecidableEq κ] (m : List (κ × ν)) (k : κ) (v : ν)
    (hn : (mapKeys m).Nodup) : mapGet m k = some v ↔ (k, v) ∈ m := by
  induction m with
  | nil => simp [mapGet]
  | cons e t ih =>
    obtain ⟨k', v'⟩ := e
    have hn' : (mapKeys t).Nodup := (List.nodup_cons.mp hn).2
    have hk' : k' ∉ mapKeys t := (List.nodup_cons.mp hn).1
    by_cases h : k' = k
    · subst h
      have : ∀ w, (k', w) ∉ t := fun w hm => hk' (List.mem_map.mpr ⟨(k', w), hm, rfl⟩)
      simp only [mapGet, if_true, Option.some.injEq, List.mem_cons, Prod.mk.injEq, true_and, this,
        or_false]
      exact eq_comm
    · have h' : ¬ k = k' := fun e => h e.symm
      simp only [mapGet, h, if_false, ih hn', List.mem_cons, Prod.mk.injEq, h', false_and, false_or]

theorem mapGet_perm {κ ν : Type} [DecidableEq κ] (m₁ m₂ : List (κ × ν)) (hp : m₁.Perm m₂)
    (hn : (mapKeys m₂).Nodup) (k : κ) : mapGet m₁ k = mapGet m₂ k := by
  have hn1 : (mapKeys m₁).Nodup := ((hp.map Prod.fst).nodup_iff).mpr hn
  cases h : mapGet m₁ k with
  | none =>
    have h1 := (mapGet_eq_none_iff m₁ k).mp h
    have : k ∉ mapKeys m₂ := fun hm => h1 (((hp.map Prod.fst).mem_iff).mpr hm)
    exact ((mapGet_eq_none_iff m₂ k).mpr this).symm
  | some v =>
    have h1 := (mapGet_eq_some_iff m₁ k v hn1).mp h
    exact ((mapGet_eq_some_iff m₂ k v hn).mpr (hp.mem_iff.mp h1)).symm


/-! ## Decoding an encoded frame -/

theorem not_mem_dropCR (c : Nat) (s : Bytes) (h : c ∉ s) : c ∉ dropCR s := by
  unfold dropCR
  split
  · exact fun hm => h (List.dropLast_subset s hm)
  · exact h

theorem GetString_lines (sm : StompMessage) (order : List (Bytes × Bytes)) :
    GetString sm order =
      ((sm.Verb :: (order.map (fun kv => kv.1 ++ 58 :: kv.2) ++ [[], sm.Body ++ [0]])).map
        (fun l => l ++ [10])).flatten ++ [] := by
  rw [GetString_eq]
  simp [List.map_map, Function.comp_def]

theorem headerLoop_GetString (lowerU : Bytes → Bytes) (sm : StompMessage)
    (order : List (Bytes × Bytes))
    (hverb : 10 ∉ sm.Verb ∧ dropCR sm.Verb ≠ [] ∧ sm.Verb.length < maxScanTokenSize)
    (hh : ∀ kv ∈ order, 58 ∉ kv.1 ∧ 58 ∉ kv.2 ∧ toLower lowerU (trimSpace kv.1) = kv.1 ∧
      trimSpace kv.2 = kv.2 ∧ 10 ∉ kv.1 ∧ 10 ∉ kv.2 ∧
      kv.1.length + 1 + kv.2.length < maxScanTokenSize)
    (hbody : 10 ∉ sm.Body ∧ sm.Body.length + 1 < maxScanTokenSize) :
    headerLoop lowerU [] (scanFrom [] (GetString sm order)) =
      (order.foldl (fun m kv => mapSet m kv.1 kv.2) (headerLine lowerU [] (dropCR sm.Verb)),
        [some (sm.Body ++ [0])]) := by
  have hnl : ∀ l ∈ sm.Verb :: (order.map (fun kv => kv.1 ++ 58 :: kv.2) ++ [[], sm.Body ++ [0]]),
      10 ∉ l ∧ l.length < maxScanTokenSize := by
    intro l hl
    simp only [List.mem_cons, List.mem_append, List.mem_map, List.mem_singleton] at hl
    rcases hl with rfl | ⟨kv, hkv, rfl⟩ | rfl | rfl | hl
    · exact ⟨hverb.1, hverb.2.2⟩
    · obtain ⟨_, _, _, _, h5, h6, h7⟩ := hh kv hkv
      refine ⟨?_, ?_⟩
      · simp only [List.mem_append, List.mem_cons, not_or]
        exact ⟨h5, by decide, h6⟩
      · simp only [List.length_append, List.length_cons]
        omega
    · exact ⟨by simp, by simp [maxScanTokenSize]⟩
    · refine ⟨?_, by simpa using hbody.2⟩
      simp only [List.mem_append, List.mem_singleton, not_or]
      exact ⟨hbody.1, by decide⟩
    · simp at hl
  rw [GetString_lines, scanFrom_lines _ [] (fun l hl => (hnl l hl).1) (fun l hl => (hnl l hl).2)]
  have htok : (sm.Verb :: (order.map (fun kv => kv.1 ++ 58 :: kv.2) ++
        [[], sm.Body ++ [0]])).map (fun l => some (dropCR l)) ++ scanFrom [] [] =
      (dropCR sm.Verb :: order.map (fun kv => kv.1 ++ 58 :: kv.2)).map some ++
        some [] :: [some (sm.Body ++ [0])] := by
    have h1 : ∀ kv ∈ order, dropCR (kv.1 ++ 58 :: kv.2) = kv.1 ++ 58 :: kv.2 :=
      fun kv hkv => dropCR_key_value kv.1 kv.2 (hh kv hkv).2.2.2.1
    have h2 : dropCR (sm.Body ++ [0]) = sm.Body ++ [0] :=
      dropCR_of_getLast _ (by simp)
    have h3 : dropCR [] = [] := rfl
    have h4 : order.map (fun kv => some (dropCR (kv.1 ++ 58 :: kv.2))) =
        order.map (fun kv => some (kv.1 ++ 58 :: kv.2)) :=
      List.map_congr_left (fun kv hkv => by rw [h1 kv hkv])
    simp [scanFrom, List.map_map, Function.comp_def, h2, h3, h4]
  rw [htok, headerLoop_lines]
  · simp only [List.foldl_cons]
    rw [foldl_headerLine lowerU order _
      (fun kv hkv => ⟨(hh kv hkv).1, (hh kv hkv).2.1, (hh kv hkv).2.2.1, (hh kv hkv).2.2.2.1⟩)]
  · intro l hl
    simp only [List.mem_cons, List.mem_map] at hl
    rcases hl with rfl | ⟨kv, _, rfl⟩
    · exact hverb.2.1
    · simp

/-- C1 fails as stated: the frame SEND with header `destination:/t` and body `hi`, whose
key and value are lower-case, trimmed and free of `:` and newline, is written as
`SEND\ndestination:/t\n\nhi\x00\n` and read back with an empty verb and with the body
`hi\x00`, the terminator's NUL byte included; and a frame with an empty verb starts
with an empty line, so its header `a:b` is read as body text and the header map comes
back empty; a verb with a `:` is read as a header; a newline inside the body is
dropped; and a frame with the header `content-length:99` and the body `hi` makes the
slice `bodyBuffer.Bytes()[:99]` go out of range, so nothing is returned. -/
theorem processReceive_GetString_counterexample :
    (∀ kv ∈ (StompMessage.mk (str "hi") [(str "destination", str "/t")] (str "SEND")).Headers,
      toLower id kv.1 = kv.1 ∧ trimSpace kv.1 = kv.1 ∧ 58 ∉ kv.1 ∧ 10 ∉ kv.1 ∧
      trimSpace kv.2 = kv.2 ∧ 58 ∉ kv.2 ∧ 10 ∉ kv.2) ∧
    GetString (StompMessage.mk (str "hi") [(str "destination", str "/t")] (str "SEND"))
      [(str "destination", str "/t")] = str "SEND\ndestination:/t\n\nhi" ++ [0, 10] ∧
    processReceive id 0
      (GetString (StompMessage.mk (str "hi") [(str "destination", str "/t")] (str "SEND"))
        [(str "destination", str "/t")]) =
      some { Body := str "hi" ++ [0], Headers := [(str "destination", str "/t")], Verb := [] } ∧
    ([] : Bytes) ≠ str "SEND" ∧ str "hi" ++ [0] ≠ str "hi" ∧
    processReceive id 0
      (GetString (StompMessage.mk [] [(str "a", str "b")] []) [(str "a", str "b")]) =
      some { Body := str "a:b" ++ [0], Headers := [], Verb := [] } ∧
    processReceive id 0 (GetString (StompMessage.mk [] [] (str "x:y")) []) =
      some { Body := [0], Headers := [(str "x", str "y")], Verb := [] } ∧
    processReceive id 0 (GetString (StompMessage.mk (str "p\nq") [] (str "SEND")) []) =
      some { Body := str "pq" ++ [0], Headers := [], Verb := [] } ∧
    processReceive id 0
      (GetString (StompMessage.mk (str "hi") [(str "content-length", str "99")] (str "SEND"))
        [(str "content-length", str "99")]) = none ∧
    processReceive id 64
      (GetString (StompMessage.mk (str "hi") [(str "content-length", str "99")] (str "SEND"))
        [(str "content-length", str "99")]) = none := by
  decide

/-- C1 as amended. For every frame whose verb is not empty (nor a lone carriage return)
and free of `:` and newline, whose header keys are lower-case, trimmed and free of `:`
and newline, whose header values are trimmed and free of `:` and newline, whose body has
no newline and whose lines fit the scanner's buffer: the enumeration of the headers has
the lookups of the frame's header map; `processReceive` applied to the bytes of
`GetString` returns a message with the empty verb, that header map and the frame's body
followed by the terminator's NUL byte when the frame has no `content-length` header or
one whose value `ParseUint` gives as 0; it returns a message with the empty verb, that
header map and the first `N` bytes of the body followed by NUL when `content-length`
gives `N` from 1 to the body length plus one, which is the frame's body itself when `N`
is the length of a non-empty body; and whenever it returns a message at all, that
message has the empty verb and that header map. -/
theorem processReceive_GetString (lowerU : Bytes → Bytes) (bufCap : Nat) (f : StompMessage)
    (order : List (Bytes × Bytes)) (horder : order.Perm f.Headers)
    (hmap : (mapKeys f.Headers).Nodup)
    (hverb : dropCR f.Verb ≠ [] ∧ 58 ∉ f.Verb ∧ 10 ∉ f.Verb)
    (hkeys : ∀ kv ∈ f.Headers,
      toLower lowerU kv.1 = kv.1 ∧ trimSpace kv.1 = kv.1 ∧ 58 ∉ kv.1 ∧ 10 ∉ kv.1)
    (hvals : ∀ kv ∈ f.Headers, trimSpace kv.2 = kv.2 ∧ 58 ∉ kv.2 ∧ 10 ∉ kv.2)
    (hbody : 10 ∉ f.Body)
    (hsize : f.Verb.length < maxScanTokenSize ∧
      (∀ kv ∈ f.Headers, kv.1.length + 1 + kv.2.length < maxScanTokenSize) ∧
      f.Body.length + 1 < maxScanTokenSize) :
    (∀ key, mapGet order key = mapGet f.Headers key) ∧
    (mapGet f.Headers (str "content-length") = none →
      processReceive lowerU bufCap (GetString f order) =
        some { Body := f.Body ++ [0], Headers := order, Verb := [] }) ∧
    (∀ contentLength, mapGet f.Headers (str "content-length") = some contentLength →
      parseUint contentLength = (f.Body.length, false) → f.Body ≠ [] →
      processReceive lowerU bufCap (GetString f order) =
        some { Body := f.Body, Headers := order, Verb := [] }) ∧
    (∀ contentLength, mapGet f.Headers (str "content-length") = some contentLength →
      (parseUint contentLength).1 = 0 →
      processReceive lowerU bufCap (GetString f order) =
        some { Body := f.Body ++ [0], Headers := order, Verb := [] }) ∧
    (∀ contentLength, mapGet f.Headers (str "content-length") = some contentLength →
      0 < (parseUint contentLength).1 → (parseUint contentLength).1 ≤ f.Body.length + 1 →
      processReceive lowerU bufCap (GetString f order) =
        some { Body := (f.Body ++ [0]).take (parseUint contentLength).1, Headers := order,
               Verb := [] }) ∧
    (∀ m, processReceive lowerU bufCap (GetString f order) = some m →
      m.Verb = [] ∧ m.Headers = order) := by
  have hget : ∀ key, mapGet order key = mapGet f.Headers key :=
    fun key => mapGet_perm order f.Headers horder hmap key
  have hloop : headerLoop lowerU [] (scanFrom [] (GetString f order)) =
      (order, [some (f.Body ++ [0])]) := by
    rw [headerLoop_GetString lowerU f order ⟨hverb.2.2, hverb.1, hsize.1⟩ ?_ ⟨hbody, hsize.2.2⟩]
    · rw [headerLine_of_not_mem lowerU [] _ (not_mem_dropCR 58 _ hverb.2.1),
        foldl_mapSet_nodup order [] ?_]
      · rfl
      · simpa using ((horder.map Prod.fst).nodup_iff).mpr hmap
    · intro kv hkv
      have hm := horder.mem_iff.mp hkv
      obtain ⟨k1, k2, k3, k4⟩ := hkeys kv hm
      obtain ⟨v1, v2, v3⟩ := hvals kv hm
      exact ⟨k3, v2, by rw [k2, k1], v1, k4, v3, hsize.2.1 kv hm⟩
  refine ⟨hget, ?_, ?_, ?_, ?_, ?_⟩
  · intro hnone
    unfold processReceive
    simp only [hloop, bodyLoop, List.nil_append, hget, hnone]
    simp
  · intro contentLength hsome hparse hne
    have hpos : 0 < f.Body.length := List.length_pos.mpr hne
    unfold processReceive
    simp only [hloop, bodyLoop, List.nil_append, hget, hsome, hparse]
    simp [sliceTo, hpos]
  · intro contentLength hsome hzero
    unfold processReceive
    simp only [hloop, bodyLoop, List.nil_append, hget, hsome, hzero]
    simp
  · intro contentLength hsome hpos hle
    unfold processReceive
    simp only [hloop, bodyLoop, List.nil_append, hget, hsome]
    simp [sliceTo, hpos, hle]
  · intro m hm
    unfold processReceive at hm
    simp only [hloop, bodyLoop, List.nil_append] at hm
    split at hm
    · obtain ⟨b, _, hb⟩ := Option.map_eq_some'.mp hm
      rw [← hb]
      exact ⟨rfl, rfl⟩
    · rw [← Option.some.inj hm]
      exact ⟨rfl, rfl⟩

/-- C1 as amended, at the SEND frame for `/topic/response` with its two headers
enumerated in reverse. -/
theorem processReceive_GetString_witness :
    processReceive id 0
      (GetString
        (StompMessage.mk (str "\x7b\"cmd\":1\x7d")
          [(str "destination", str "/topic/response"), (str "content-type", str "application/json")]
          (str "SEND"))
        [(str "content-type", str "application/json"), (str "destination", str "/topic/response")]) =
      some { Body := str "\x7b\"cmd\":1\x7d" ++ [0],
             Headers := [(str "content-type", str "application/json"),
               (str "destination", str "/topic/response")],
             Verb := [] } :=
  (processReceive_GetString id 0
    (StompMessage.mk (str "\x7b\"cmd\":1\x7d")
      [(str "destination", str "/topic/response"), (str "content-type", str "application/json")]
      (str "SEND"))
    [(str "content-type", str "application/json"), (str "destination", str "/topic/response")]
    (List.Perm.swap _ _ _) (by decide) (by decide) (by decide) (by decide) (by decide)
    (by decide)).2.1 (by decide)

/-! ## Content length -/

theorem decimalAux_acc (fuel n : Nat) (acc : Bytes) :
    decimalAux fuel n acc = decimalAux fuel n [] ++ acc := by
  induction fuel generalizing n acc with
  | zero => simp [decimalAux]
  | succ fuel ih =>
    unfold decimalAux
    by_cases h : n / 10 = 0
    · simp [h]
    · simp only [h, if_false]
      rw [ih (n / 10) ((48 + n % 10) :: acc), ih (n / 10) [48 + n % 10]]
      simp

theorem decimalAux_fuel (fuel₁ fuel₂ n : Nat) (acc : Bytes) (h₁ : n < fuel₁) (h₂ : n < fuel₂) :
    decimalAux fuel₁ n acc = decimalAux fuel₂ n acc := by
  induction fuel₁ generalizing fuel₂ n acc with
  | zero => omega
  | succ f₁ ih =>
    cases fuel₂ with
    | zero => omega
    | succ f₂ =>
      unfold decimalAux
      by_cases h : n / 10 = 0
      · simp [h]
      · simp only [h, if_false]
        have hn : n / 10 < n := Nat.div_lt_self (by omega) (by norm_num)
        exact ih f₂ (n / 10) _ (by omega) (by omega)

theorem decimal_small (n : Nat) (h : n < 10) : decimal n = [48 + n] := by
  have h0 : n / 10 = 0 := Nat.div_eq_of_lt h
  have h1 : n % 10 = n := Nat.mod_eq_of_lt h
  simp [decimal, decimalAux, h0, h1]

theorem decimal_large (n : Nat) (h : 10 ≤ n) :
    decimal n = decimal (n / 10) ++ [48 + n % 10] := by
  have h0 : ¬ n / 10 = 0 := by
    intro e
    have := (Nat.div_eq_zero_iff (by norm_num : 0 < 10)).mp e
    omega
  have hn : n / 10 < n := Nat.div_lt_self (by omega) (by norm_num)
  unfold decimal
  rw [decimalAux]
  simp only [h0, if_false]
  rw [decimalAux_acc, decimalAux_fuel n (n / 10 + 1) (n / 10) [] hn (by omega)]

theorem decimal_digits (n : Nat) : ∀ c ∈ decimal n, 48 ≤ c ∧ c ≤ 57 := by
  induction n using Nat.strong_induction_on with
  | _ n ih =>
    by_cases h : n < 10
    · rw [decimal_small n h]
      intro c hc
      simp only [List.mem_singleton] at hc
      omega
    · rw [decimal_large n (by omega)]
      intro c hc
      rcases List.mem_append.mp hc with hc | hc
      · exact ih (n / 10) (Nat.div_lt_self (by omega) (by norm_num)) c hc
      · simp only [List.mem_singleton] at hc
        have := Nat.mod_lt n (by norm_num : 10 > 0)
        omega

theorem decimal_ne_nil (n : Nat) : decimal n ≠ [] := by
  by_cases h : n < 10
  · rw [decimal_small n h]
    simp
  · rw [decimal_large n (by omega)]
    simp

theorem decimal_length (n k : Nat) (h : n < 10 ^ (k + 1)) : (decimal n).length ≤ k + 1 := by
  induction k generalizing n with
  | zero =>
    rw [decimal_small n (by simpa using h)]
    simp
  | succ k ih =>
    by_cases h10 : n < 10
    · rw [decimal_small n h10]
      simp
    · rw [decimal_large n (by omega)]
      have : n / 10 < 10 ^ (k + 1) := by
        apply Nat.div_lt_of_lt_mul
        rw [pow_succ] at h
        omega
      have := ih (n / 10) this
      simp only [List.length_append, List.length_singleton]
      omega

theorem parseUintLoop_append (p : Nat) (xs ys : Bytes) :
    parseUintLoop p (xs ++ ys) =
      if (parseUintLoop p xs).2 then parseUintLoop p xs
      else parseUintLoop (parseUintLoop p xs).1 ys := by
  induction xs generalizing p with
  | nil => simp [parseUintLoop]
  | cons c t ih =>
    simp only [List.cons_append, parseUintLoop]
    split
    · split
      · simp
      · split
        · simp
        · exact ih _
    · simp

theorem parseUint_decimal (n : Nat) (h : n < 2 ^ 64) : parseUint (decimal n) = (n, false) := by
  have key : parseUintLoop 0 (decimal n) = (n, false) := by
    induction n using Nat.strong_induction_on with
    | _ n ih =>
      by_cases h10 : n < 10
      · rw [decimal_small n h10]
        have h1 : 48 ≤ 48 + n ∧ 48 + n ≤ 57 := by omega
        have h2 : ¬ (0 ≥ (2 ^ 64 - 1) / 10 + 1) := by norm_num
        have h3 : ¬ (0 * 10 + (48 + n - 48) > 2 ^ 64 - 1) := by omega
        simp only [parseUintLoop, h1, h2, h3, and_self, if_true, if_false]
        simp
      · rw [decimal_large n (by omega), parseUintLoop_append,
          ih (n / 10) (Nat.div_lt_self (by omega) (by norm_num)) (by omega)]
        have hm := Nat.mod_lt n (by norm_num : 10 > 0)
        have h1 : 48 ≤ 48 + n % 10 ∧ 48 + n % 10 ≤ 57 := by omega
        have h2 : ¬ (n / 10 ≥ (2 ^ 64 - 1) / 10 + 1) := by omega
        have h3 : ¬ (n / 10 * 10 + (48 + n % 10 - 48) > 2 ^ 64 - 1) := by omega
        have h4 : n / 10 * 10 + (48 + n % 10 - 48) = n := by omega
        simp only [parseUintLoop, h1, h2, h3, h4, and_self, if_true, if_false]
        simp
        omega
  unfold parseUint
  rw [if_neg (decimal_ne_nil n), key]


theorem spaceRunes_head : spaceRunes.all (fun e =>
    match e with
    | e0 :: _ => decide (e0 < 48 ∨ 57 < e0)
    | [] => false) = true := by decide

theorem spaceRunes_last : spaceRunes.all (fun e =>
    match e.reverse with
    | e0 :: _ => decide (e0 < 48 ∨ 57 < e0)
    | [] => false) = true := by decide

theorem isPrefixOf_digit (e t : Bytes) (c : Nat) (hc : 48 ≤ c ∧ c ≤ 57)
    (he : (match e with
      | e0 :: _ => decide (e0 < 48 ∨ 57 < e0)
      | [] => false) = true) : e.isPrefixOf (c :: t) = false := by
  cases e with
  | nil => simp at he
  | cons e0 es =>
    simp only [decide_eq_true_eq] at he
    have : e0 ≠ c := by omega
    simp [List.isPrefixOf, this]

theorem trimSpace_digits (s : Bytes) (hne : s ≠ []) (hd : ∀ c ∈ s, 48 ≤ c ∧ c ≤ 57) :
    trimSpace s = s := by
  have hl : leadingSpace s = 0 := by
    apply leadingSpace_eq_zero_of
    intro e he
    cases s with
    | nil => exact absurd rfl hne
    | cons c t =>
      exact isPrefixOf_digit e t c (hd c (List.mem_cons_self _ _))
        (List.all_eq_true.mp spaceRunes_head e he)
  have hr : trailingSpace s = 0 := by
    apply trailingSpace_eq_zero_of
    intro e he
    cases hs : s.reverse with
    | nil => exact absurd (List.reverse_eq_nil_iff.mp hs) hne
    | cons c t =>
      have hc : c ∈ s := List.mem_reverse.mp (by rw [hs]; exact List.mem_cons_self _ _)
      exact isPrefixOf_digit e.reverse t c (hd c hc) (List.all_eq_true.mp spaceRunes_last e he)
  have h1 : ∀ n, trimLeftN n s = s := by
    intro n
    cases n <;> simp [trimLeftN, hl]
  have h2 : ∀ n, trimRightN n s = s := by
    intro n
    cases n <;> simp [trimRightN, hr]
  simp only [trimSpace, h1, h2]

/-- C3 fails as stated: for the body `a`, NUL, newline, `b` sent with `content-length:4`
the returned body is `a`, NUL, `b`, NUL: the newline is gone and the terminator's NUL
has taken the fourth place; and for the empty body sent with `content-length:0` the
returned body is the terminator's NUL byte. -/
theorem processReceive_embedded_newline_counterexample :
    decimal ([97, 0, 10, 98] : Bytes).length = str "4" ∧
    processReceive id 0
      (str "MESSAGE" ++ [10] ++ str "content-length:" ++ str "4" ++ [10] ++ [10] ++
        [97, 0, 10, 98] ++ [0, 10]) =
      some { Body := [97, 0, 98, 0], Headers := [(str "content-length", str "4")], Verb := [] } ∧
    ([97, 0, 98, 0] : Bytes) ≠ [97, 0, 10, 98] ∧
    processReceive id 0
      (str "MESSAGE" ++ [10] ++ str "content-length:" ++ decimal 0 ++ [10] ++ [10] ++
        [] ++ [0, 10]) =
      some { Body := [0], Headers := [(str "content-length", str "0")], Verb := [] } := by
  decide

/-- C3 as amended. For every non-empty byte sequence `b` without a newline byte, embedded
NUL bytes allowed, that fits the scanner's buffer together with the terminator's NUL,
`processReceive` applied to a verb line, the header line `content-length:<len(b)>`, an
empty line, `b` and the terminator NUL newline returns a message whose body is `b` byte
for byte. -/
theorem processReceive_content_length_body (lowerU : Bytes → Bytes) (bufCap : Nat)
    (verb b : Bytes)
    (hverb : 10 ∉ verb ∧ dropCR verb ≠ [] ∧ verb.length < maxScanTokenSize)
    (hb : b ≠ []) (hnl : 10 ∉ b) (hlen : b.length + 1 < maxScanTokenSize) :
    ∃ m, processReceive lowerU bufCap
        (verb ++ [10] ++ str "content-length:" ++ decimal b.length ++ [10] ++ [10] ++ b ++
          [0, 10]) = some m ∧
      m.Body = b ∧ mapGet m.Headers (str "content-length") = some (decimal b.length) := by
  have hinput : verb ++ [10] ++ str "content-length:" ++ decimal b.length ++ [10] ++ [10] ++ b ++
      [0, 10] =
      GetString { Body := b, Headers := [(str "content-length", decimal b.length)], Verb := verb }
        [(str "content-length", decimal b.length)] := by
    rw [GetString_eq]
    have : str "content-length:" = str "content-length" ++ [58] := by decide
    simp [this]
  have hdig := decimal_digits b.length
  have hmax : maxScanTokenSize = 65536 := rfl
  have hloop := headerLoop_GetString lowerU
    { Body := b, Headers := [(str "content-length", decimal b.length)], Verb := verb }
    [(str "content-length", decimal b.length)] hverb
    (by
      intro kv hkv
      simp only [List.mem_singleton] at hkv
      subst hkv
      have hdl : (decimal b.length).length ≤ 5 :=
        decimal_length b.length 4 (by norm_num; omega)
      have hcl : (str "content-length").length = 14 := by decide
      refine ⟨by show 58 ∉ str "content-length"; decide, ?_, ?_, ?_,
        by show 10 ∉ str "content-length"; decide, ?_, ?_⟩
      · exact fun hm => by have := hdig 58 hm; omega
      · have h1 : trimSpace (str "content-length") = str "content-length" := by decide
        rw [h1]
        rfl
      · exact trimSpace_digits _ (decimal_ne_nil _) hdig
      · exact fun hm => by have := hdig 10 hm; omega
      · show (str "content-length").length + 1 + (decimal b.length).length < maxScanTokenSize
        rw [hcl, hmax]
        omega)
    ⟨hnl, hlen⟩
  have hpos : 0 < b.length := List.length_pos.mpr hb
  have hparse : parseUint (decimal b.length) = (b.length, false) :=
    parseUint_decimal b.length (by rw [hmax] at hlen; omega)
  rw [hinput]
  unfold processReceive
  simp only [hloop, bodyLoop, List.nil_append, List.foldl_cons, List.foldl_nil,
    mapGet_mapSet_self, hparse]
  simp [sliceTo, hpos, mapGet_mapSet_self]

/-- C3 as amended, at the body `a`, NUL, `b`, carriage return after the verb line
MESSAGE. -/
theorem processReceive_content_length_body_witness :
    ∃ m, processReceive id 0
        (str "MESSAGE" ++ [10] ++ str "content-length:" ++
          decimal ([97, 0, 98, 13] : Bytes).length ++ [10] ++ [10] ++ [97, 0, 98, 13] ++
          [0, 10]) = some m ∧
      m.Body = [97, 0, 98, 13] ∧
      mapGet m.Headers (str "content-length") = some (decimal ([97, 0, 98, 13] : Bytes).length) :=
  processReceive_content_length_body id 0 (str "MESSAGE") [97, 0, 98, 13] (by decide)
    (by decide) (by decide) (by decide)

/-- C2 fails as stated: with `content-length:0` the body is returned whole, four bytes
here and not zero; and with `content-length:5` in front of an empty body the slice
`bodyBuffer.Bytes()[:5]` is out of range whatever the runtime does, so `processReceive`
panics and returns nothing. -/
theorem processReceive_truncation_counterexample :
    parseUint (str "0") = (0, false) ∧
    processReceive id 0 (str "MESSAGE\ncontent-length:0\n\nabc" ++ [0, 10]) =
      some { Body := str "abc" ++ [0], Headers := [(str "content-length", str "0")],
             Verb := [] } ∧
    (str "abc" ++ [0]).length = 4 ∧
    parseUint (str "5") = (5, false) ∧
    (∀ bufCap, processReceive id bufCap (str "MESSAGE\ncontent-length:5\n\n") = none) := by
  refine ⟨by decide, by decide, by decide, by decide, fun bufCap => rfl⟩

/-- C2 as amended. For every input whose header block carries a `content-length` header
that parses as `N`: when `N` is positive and not larger than the number of body bytes
read, `processReceive` returns normally and the body is the first `N` of those bytes,
exactly `N` bytes; when `N` is zero, it returns normally with all body bytes read,
untruncated. -/
theorem processReceive_truncation (lowerU : Bytes → Bytes) (bufCap : Nat) (input : Bytes)
    (contentLength : Bytes) (N : Nat)
    (hheader : mapGet (headerLoop lowerU [] (scanFrom [] input)).1 (str "content-length") =
      some contentLength)
    (hparse : parseUint contentLength = (N, false)) :
    (0 < N → N ≤ (bodyLoop [] (headerLoop lowerU [] (scanFrom [] input)).2).length →
      ∃ m, processReceive lowerU bufCap input = some m ∧
        m.Body = (bodyLoop [] (headerLoop lowerU [] (scanFrom [] input)).2).take N ∧
        m.Body.length = N ∧
        m.Headers = (headerLoop lowerU [] (scanFrom [] input)).1) ∧
    (N = 0 →
      ∃ m, processReceive lowerU bufCap input = some m ∧
        m.Body = bodyLoop [] (headerLoop lowerU [] (scanFrom [] input)).2 ∧
        m.Headers = (headerLoop lowerU [] (scanFrom [] input)).1) := by
  constructor
  · intro hpos hle
    refine ⟨{ Body := (bodyLoop [] (headerLoop lowerU [] (scanFrom [] input)).2).take N,
              Headers := (headerLoop lowerU [] (scanFrom [] input)).1, Verb := [] },
      ?_, rfl, ?_, rfl⟩
    · unfold processReceive
      simp only [hheader, hparse]
      simp [sliceTo, hpos, hle]
    · simp [List.length_take, hle]
  · intro hzero
    subst hzero
    refine ⟨{ Body := bodyLoop [] (headerLoop lowerU [] (scanFrom [] input)).2,
              Headers := (headerLoop lowerU [] (scanFrom [] input)).1, Verb := [] },
      ?_, rfl, rfl⟩
    unfold processReceive
    simp only [hheader, hparse]
    simp

/-- C2 as amended, at a frame whose body `abcdef` is cut to its first three bytes. -/
theorem processReceive_truncation_witness :
    ∃ m, processReceive id 0 (str "MESSAGE\ncontent-length:3\n\nabcdef" ++ [0, 10]) = some m ∧
      m.Body = (bodyLoop []
        (headerLoop id [] (scanFrom [] (str "MESSAGE\ncontent-length:3\n\nabcdef" ++ [0, 10]))).2).take
          3 ∧
      m.Body.length = 3 ∧
      m.Headers =
        (headerLoop id [] (scanFrom [] (str "MESSAGE\ncontent-length:3\n\nabcdef" ++ [0, 10]))).1 :=
  (processReceive_truncation id 0 (str "MESSAGE\ncontent-length:3\n\nabcdef" ++ [0, 10])
    (str "3") 3 (by decide) (by decide)).1 (by decide) (by decide)

end TrainAgent
